import Mathlib

/-!
Verification of `scraper.py`: a script that connects to a PostgreSQL
database, creates four tables if absent, fetches market data from the NSE
client library and upserts it.  The script's SQL statements and control
flow are embedded shallowly below; machine details that the claims do not
touch (SQL wire protocol, SERIAL id values, NUMERIC precision) are elided,
numeric columns are modelled as integers and timestamps as naturals.
-/

namespace Scraper

/-! ## Table schemas (from `setup_database`, scraper.py lines 24-67)

Each `CREATE TABLE IF NOT EXISTS` statement is recorded as a `TableSchema`:
the table's name, its column names in declaration order, and the column set
of its UNIQUE constraint (the natural key; every table also has a surrogate
`id SERIAL PRIMARY KEY`). -/

structure TableSchema where
  name : String
  columns : List String
  uniqueKey : List String
deriving DecidableEq

def indices_schema : TableSchema :=
  { name := "indices"
  , columns := ["id", "name", "current_value", "change", "percent_change", "last_updated"]
  , uniqueKey := ["name"] }

def market_movers_schema : TableSchema :=
  { name := "market_movers"
  , columns := ["id", "ticker", "price", "percent_change", "mover_type"]
  , uniqueKey := ["ticker", "mover_type"] }

def sectoral_performance_schema : TableSchema :=
  { name := "sectoral_performance"
  , columns := ["id", "sector_name", "percent_change", "last_updated"]
  , uniqueKey := ["sector_name"] }

def volume_shockers_schema : TableSchema :=
  { name := "volume_shockers"
  , columns := ["id", "ticker", "volume_change_percent", "last_updated"]
  , uniqueKey := ["ticker"] }

/-! ## Rows of the four tables

The surrogate `id` column is not modelled: no statement of the script reads
or writes it explicitly.  `NUMERIC` values are modelled as `Int`,
`TIMESTAMP` values as `Nat`. -/

structure IndexRow where
  name : String
  current_value : Int
  change : Int
  percent_change : Int
  last_updated : Nat
deriving DecidableEq

structure MarketMoverRow where
  ticker : String
  price : Int
  percent_change : Int
  mover_type : String
deriving DecidableEq

structure SectorRow where
  sector_name : String
  percent_change : Int
  last_updated : Nat
deriving DecidableEq

structure VolumeShockerRow where
  ticker : String
  volume_change_percent : Int
  last_updated : Nat
deriving DecidableEq

/-- The visible state of the database: which tables exist (with their
schemas), and the rows of each of the four tables. -/
structure DBState where
  tables : List TableSchema
  indices : List IndexRow
  market_movers : List MarketMoverRow
  sectoral_performance : List SectorRow
  volume_shockers : List VolumeShockerRow
deriving DecidableEq

def emptyDB : DBState :=
  { tables := [], indices := [], market_movers := []
  , sectoral_performance := [], volume_shockers := [] }

/-! ## setup_database (scraper.py lines 24-68) -/

/-- `CREATE TABLE IF NOT EXISTS`: when a table of that name already exists
the statement does nothing (the existing schema is kept); otherwise the
table is added, empty. -/
def createTableIfNotExists (tables : List TableSchema) (t : TableSchema) : List TableSchema :=
  if tables.any (fun s => s.name == t.name) then tables else tables ++ [t]

/-- `setup_database(conn)`: issues the four CREATE TABLE IF NOT EXISTS
statements in order and commits.  Row data is untouched. -/
def setup_database (db : DBState) : DBState :=
  let t1 := createTableIfNotExists db.tables indices_schema
  let t2 := createTableIfNotExists t1 market_movers_schema
  let t3 := createTableIfNotExists t2 sectoral_performance_schema
  let t4 := createTableIfNotExists t3 volume_shockers_schema
  { db with tables := t4 }

/-! ## The NSE data source (the `nse` client object)

The script calls three methods of the client: `get_top_gainers()`,
`get_top_losers()` and `get_sectoral_indices()`.  Each is modelled as the
data the call would return, with `none` standing for the call raising an
exception.  `get_sectoral_indices` returns a dict from sector name to a
record with a `pChange` field; its `.items()` iteration is a list of
(name, pChange) pairs in iteration order. -/

structure StockEntry where
  symbol : String
  lastPrice : Int
  pChange : Int
deriving DecidableEq

structure Nse where
  get_top_gainers : Option (List StockEntry)
  get_top_losers : Option (List StockEntry)
  get_sectoral_indices : Option (List (String × Int))
deriving DecidableEq

/-! ## The SQL upserts issued by `update_data` (lines 79-93 and 102-107)

`INSERT ... ON CONFLICT (key) DO UPDATE SET ...`.  The UNIQUE constraint
guarantees at most one existing row can conflict, so the upsert is modelled
as: replace the first row with a matching key (overwriting exactly the
columns the SET clause names), or append a fresh row when no key matches. -/

def upsertMarketMover : List MarketMoverRow → MarketMoverRow → List MarketMoverRow
  | [], r => [r]
  | x :: xs, r =>
    if x.ticker = r.ticker ∧ x.mover_type = r.mover_type then
      { x with price := r.price, percent_change := r.percent_change } :: xs
    else
      x :: upsertMarketMover xs r

/-- Upsert into `sectoral_performance`: on insert `last_updated` takes its
`DEFAULT CURRENT_TIMESTAMP`; on conflict the SET clause writes
`percent_change` and `last_updated = CURRENT_TIMESTAMP`.  `now` is the
transaction's CURRENT_TIMESTAMP. -/
def upsertSector : List SectorRow → String → Int → Nat → List SectorRow
  | [], name, pchange, now => [⟨name, pchange, now⟩]
  | x :: xs, name, pchange, now =>
    if x.sector_name = name then
      { x with percent_change := pchange, last_updated := now } :: xs
    else
      x :: upsertSector xs name pchange now

/-! ## update_data (scraper.py lines 70-113) -/

def gainerRow (g : StockEntry) : MarketMoverRow :=
  { ticker := g.symbol, price := g.lastPrice, percent_change := g.pChange
  , mover_type := "GAINER" }

def loserRow (l : StockEntry) : MarketMoverRow :=
  { ticker := l.symbol, price := l.lastPrice, percent_change := l.pChange
  , mover_type := "LOSER" }

def applyMovers (rows : List MarketMoverRow) (entries : List MarketMoverRow) :
    List MarketMoverRow :=
  entries.foldl upsertMarketMover rows

/-- The first try block of `update_data`: fetch the gainers, upsert the
first five as GAINER rows, fetch the losers, upsert the first five as LOSER
rows.  An exception from either fetch (modelled by `none`) is caught by the
surrounding `except`, abandoning the rest of the block but keeping the
upserts already executed. -/
def moversBlock (rows : List MarketMoverRow) (nse : Nse) : List MarketMoverRow :=
  match nse.get_top_gainers with
  | none => rows
  | some gs =>
    let rows1 := applyMovers rows ((gs.take 5).map gainerRow)
    match nse.get_top_losers with
    | none => rows1
    | some ls => applyMovers rows1 ((ls.take 5).map loserRow)

/-- The second try block of `update_data`: fetch the sectoral indices and
upsert every (sector, pChange) item.  A fetch exception (`none`) is caught,
leaving the table as it was. -/
def sectoralBlock (rows : List SectorRow) (nse : Nse) (now : Nat) : List SectorRow :=
  match nse.get_sectoral_indices with
  | none => rows
  | some secs => secs.foldl (fun rs p => upsertSector rs p.1 p.2 now) rows

/-- `update_data(conn, nse)`: runs the movers block, then the sectoral
block, then commits.  `now` is the transaction's CURRENT_TIMESTAMP.  The
two blocks write disjoint tables; no statement of the function touches
`indices` or `volume_shockers`. -/
def update_data (db : DBState) (nse : Nse) (now : Nat) : DBState :=
  { db with
      market_movers := moversBlock db.market_movers nse
      sectoral_performance := sectoralBlock db.sectoral_performance nse now }

/-! ## The main execution block (scraper.py lines 117-141) -/

/-- Whether the `psycopg2.connect` call inside `get_db_connection` succeeds
or raises. -/
inductive ConnAttempt
  | success
  | failure
deriving DecidableEq

/-- `get_db_connection()`: returns a connection on success, and on any
exception logs and returns `None`.  `true` stands for a returned
connection, `false` for `None`. -/
def get_db_connection : ConnAttempt → Bool
  | ConnAttempt.success => true
  | ConnAttempt.failure => false

/-- Observable outcome of one script invocation: the final database state,
whether `setup_database` and `update_data` were entered, and whether
`connection.close()` ran. -/
structure RunResult where
  db : DBState
  ranSetup : Bool
  ranUpdate : Bool
  closed : Bool
deriving DecidableEq

/-- The `if connection: try/except/finally` of the main block, with the two
body steps abstracted as `Except`-valued functions so that an uncaught
exception inside either (carrying the database state it leaves behind) can
be expressed.  The `except` clause only logs; the `finally` clause closes
the connection on every path. -/
def runMain (connOk : Bool) (db0 : DBState)
    (setupStep : DBState → Except DBState DBState)
    (updateStep : DBState → Except DBState DBState) : RunResult :=
  if connOk then
    match setupStep db0 with
    | Except.error dbe => { db := dbe, ranSetup := true, ranUpdate := false, closed := true }
    | Except.ok db1 =>
      match updateStep db1 with
      | Except.error dbe => { db := dbe, ranSetup := true, ranUpdate := true, closed := true }
      | Except.ok db2 => { db := db2, ranSetup := true, ranUpdate := true, closed := true }
  else
    { db := db0, ranSetup := false, ranUpdate := false, closed := false }

/-- One whole invocation of the script on the normal path: `Nse()` is
acquired (its responses are `nse`), `get_db_connection()` is attempted,
and when a connection is obtained the body runs `setup_database` then
`update_data` and finally closes the connection. -/
def scriptMain (att : ConnAttempt) (db0 : DBState) (nse : Nse) (now : Nat) : RunResult :=
  runMain (get_db_connection att) db0
    (fun db => Except.ok (setup_database db))
    (fun db => Except.ok (update_data db nse now))

/-! ## Derived notions used by the claims -/

/-- A row with the given natural key is present in `market_movers`. -/
def hasMoverKey (rows : List MarketMoverRow) (t mt : String) : Prop :=
  ∃ x ∈ rows, x.ticker = t ∧ x.mover_type = mt

instance (rows : List MarketMoverRow) (t mt : String) : Decidable (hasMoverKey rows t mt) :=
  List.decidableBEx _ rows

/-- A row with the given sector name is present in `sectoral_performance`. -/
def hasSectorKey (rows : List SectorRow) (n : String) : Prop :=
  ∃ x ∈ rows, x.sector_name = n

instance (rows : List SectorRow) (n : String) : Decidable (hasSectorKey rows n) :=
  List.decidableBEx _ rows

/-- First row of `market_movers` carrying the given natural key. -/
def lookupMover : List MarketMoverRow → String → String → Option MarketMoverRow
  | [], _, _ => none
  | x :: xs, t, mt =>
    if x.ticker = t ∧ x.mover_type = mt then some x else lookupMover xs t mt

/-- First row of `sectoral_performance` carrying the given sector name. -/
def lookupSector : List SectorRow → String → Option SectorRow
  | [], _ => none
  | x :: xs, n => if x.sector_name = n then some x else lookupSector xs n

/-- Number of `market_movers` rows with the given `mover_type`. -/
def countType (rows : List MarketMoverRow) (t : String) : Nat :=
  rows.countP (fun x => x.mover_type == t)

/-- The uniqueness constraints of the four tables all hold: at most one
`indices` row per name, one `market_movers` row per (ticker, mover_type),
one `sectoral_performance` row per sector name, one `volume_shockers` row
per ticker. -/
def dbUnique (db : DBState) : Prop :=
  (db.indices.map (fun r => r.name)).Nodup ∧
  (db.market_movers.map (fun r => (r.ticker, r.mover_type))).Nodup ∧
  (db.sectoral_performance.map (fun r => r.sector_name)).Nodup ∧
  (db.volume_shockers.map (fun r => r.ticker)).Nodup

instance (db : DBState) : Decidable (dbUnique db) := by
  unfold dbUnique; infer_instance

/-- The operations the script can apply to the database, for stating
invariants over arbitrary runs. -/
inductive Op
  | setup
  | update (nse : Nse) (now : Nat)

def applyOp (db : DBState) : Op → DBState
  | Op.setup => setup_database db
  | Op.update nse now => update_data db nse now

def applyOps (db : DBState) (ops : List Op) : DBState :=
  ops.foldl applyOp db

/-- Natural keys of the `market_movers` rows, in order. -/
def moverKeys (rows : List MarketMoverRow) : List (String × String) :=
  rows.map (fun x => (x.ticker, x.mover_type))

/-! ## Lemmas about the `market_movers` upsert -/

theorem lookupMover_upsertMarketMover_self (rows : List MarketMoverRow)
    (r : MarketMoverRow) :
    lookupMover (upsertMarketMover rows r) r.ticker r.mover_type = some r := by
  induction rows with
  | nil => simp [upsertMarketMover, lookupMover]
  | cons x xs ih =>
    by_cases h : x.ticker = r.ticker ∧ x.mover_type = r.mover_type
    · simp only [upsertMarketMover, if_pos h, lookupMover]
      obtain ⟨ht, hm⟩ := h
      rw [ht, hm]
    · simp only [upsertMarketMover, if_neg h, lookupMover]
      exact ih

theorem lookupMover_upsertMarketMover_other (rows : List MarketMoverRow)
    (r : MarketMoverRow) (t mt : String)
    (h : ¬(t = r.ticker ∧ mt = r.mover_type)) :
    lookupMover (upsertMarketMover rows r) t mt = lookupMover rows t mt := by
  induction rows with
  | nil =>
    have hrc : ¬(r.ticker = t ∧ r.mover_type = mt) :=
      fun hc => h ⟨hc.1.symm, hc.2.symm⟩
    simp [upsertMarketMover, lookupMover, hrc]
  | cons x xs ih =>
    by_cases hx : x.ticker = r.ticker ∧ x.mover_type = r.mover_type
    · simp only [upsertMarketMover, if_pos hx, lookupMover]
      have hxt : ¬(x.ticker = t ∧ x.mover_type = mt) :=
        fun hc => h ⟨hc.1.symm.trans hx.1, hc.2.symm.trans hx.2⟩
      rw [if_neg hxt, if_neg hxt]
    · simp only [upsertMarketMover, if_neg hx, lookupMover]
      by_cases hxt : x.ticker = t ∧ x.mover_type = mt
      · rw [if_pos hxt, if_pos hxt]
      · rw [if_neg hxt, if_neg hxt]
        exact ih

theorem hasMoverKey_upsertMarketMover_mono (rows : List MarketMoverRow)
    (r : MarketMoverRow) (t mt : String) (h : hasMoverKey rows t mt) :
    hasMoverKey (upsertMarketMover rows r) t mt := by
  induction rows with
  | nil => simp [hasMoverKey] at h
  | cons x xs ih =>
    by_cases hx : x.ticker = r.ticker ∧ x.mover_type = r.mover_type
    · simp only [upsertMarketMover, if_pos hx]
      rcases h with ⟨y, hy, hyk⟩
      rcases List.mem_cons.mp hy with hyx | hyxs
      · subst hyx
        exact ⟨_, List.mem_cons_self _ _, by simpa using hyk⟩
      · exact ⟨y, List.mem_cons_of_mem _ hyxs, hyk⟩
    · simp only [upsertMarketMover, if_neg hx]
      rcases h with ⟨y, hy, hyk⟩
      rcases List.mem_cons.mp hy with hyx | hyxs
      · subst hyx
        exact ⟨y, List.mem_cons_self _ _, hyk⟩
      · rcases ih ⟨y, hyxs, hyk⟩ with ⟨z, hz, hzk⟩
        exact ⟨z, List.mem_cons_of_mem _ hz, hzk⟩

theorem hasMoverKey_upsertMarketMover_self (rows : List MarketMoverRow)
    (r : MarketMoverRow) :
    hasMoverKey (upsertMarketMover rows r) r.ticker r.mover_type := by
  induction rows with
  | nil => exact ⟨r, by simp [upsertMarketMover], rfl, rfl⟩
  | cons x xs ih =>
    by_cases hx : x.ticker = r.ticker ∧ x.mover_type = r.mover_type
    · simp only [upsertMarketMover, if_pos hx]
      exact ⟨_, List.mem_cons_self _ _, hx.1, hx.2⟩
    · simp only [upsertMarketMover, if_neg hx]
      rcases ih with ⟨z, hz, hzk⟩
      exact ⟨z, List.mem_cons_of_mem _ hz, hzk⟩

theorem upsertMarketMover_length_present (rows : List MarketMoverRow)
    (r : MarketMoverRow) (h : hasMoverKey rows r.ticker r.mover_type) :
    (upsertMarketMover rows r).length = rows.length := by
  induction rows with
  | nil => simp [hasMoverKey] at h
  | cons x xs ih =>
    by_cases hx : x.ticker = r.ticker ∧ x.mover_type = r.mover_type
    · simp [upsertMarketMover, hx]
    · simp only [upsertMarketMover, if_neg hx, List.length_cons]
      rcases h with ⟨y, hy, hyk⟩
      rcases List.mem_cons.mp hy with hyx | hyxs
      · subst hyx; exact absurd ⟨hyk.1, hyk.2⟩ hx
      · rw [ih ⟨y, hyxs, hyk⟩]

theorem upsertMarketMover_not_present (rows : List MarketMoverRow)
    (r : MarketMoverRow) (h : ¬hasMoverKey rows r.ticker r.mover_type) :
    upsertMarketMover rows r = rows ++ [r] := by
  induction rows with
  | nil => simp [upsertMarketMover]
  | cons x xs ih =>
    by_cases hx : x.ticker = r.ticker ∧ x.mover_type = r.mover_type
    · exact absurd ⟨x, List.mem_cons_self _ _, hx⟩ h
    · simp only [upsertMarketMover, if_neg hx, List.cons_append, List.cons.injEq, true_and]
      exact ih (fun ⟨y, hy, hyk⟩ => h ⟨y, List.mem_cons_of_mem _ hy, hyk⟩)

theorem moverKeys_upsertMarketMover_present (rows : List MarketMoverRow)
    (r : MarketMoverRow) (h : hasMoverKey rows r.ticker r.mover_type) :
    moverKeys (upsertMarketMover rows r) = moverKeys rows := by
  induction rows with
  | nil => simp [hasMoverKey] at h
  | cons x xs ih =>
    by_cases hx : x.ticker = r.ticker ∧ x.mover_type = r.mover_type
    · simp [upsertMarketMover, hx, moverKeys]
    · simp only [upsertMarketMover, if_neg hx, moverKeys, List.map_cons, List.cons.injEq,
        true_and]
      rcases h with ⟨y, hy, hyk⟩
      rcases List.mem_cons.mp hy with hyx | hyxs
      · subst hyx; exact absurd ⟨hyk.1, hyk.2⟩ hx
      · exact ih ⟨y, hyxs, hyk⟩

theorem mem_moverKeys (rows : List MarketMoverRow) (t mt : String) :
    (t, mt) ∈ moverKeys rows ↔ hasMoverKey rows t mt := by
  simp [moverKeys, hasMoverKey]

theorem moverKeys_nodup_upsertMarketMover (rows : List MarketMoverRow)
    (r : MarketMoverRow) (h : (moverKeys rows).Nodup) :
    (moverKeys (upsertMarketMover rows r)).Nodup := by
  by_cases hp : hasMoverKey rows r.ticker r.mover_type
  · rw [moverKeys_upsertMarketMover_present rows r hp]; exact h
  · rw [upsertMarketMover_not_present rows r hp]
    have : moverKeys (rows ++ [r]) = moverKeys rows ++ [(r.ticker, r.mover_type)] := by
      simp [moverKeys]
    rw [this, List.nodup_append]
    refine ⟨h, List.nodup_singleton _, ?_⟩
    intro p hp1 hp2
    rcases List.mem_singleton.mp hp2 with rfl
    exact hp ((mem_moverKeys rows r.ticker r.mover_type).mp hp1)

theorem mover_type_mem_upsertMarketMover (rows : List MarketMoverRow)
    (r x : MarketMoverRow) (hx : x ∈ upsertMarketMover rows r) :
    x.mover_type = r.mover_type ∨ ∃ y ∈ rows, x.mover_type = y.mover_type := by
  induction rows with
  | nil =>
    simp only [upsertMarketMover, List.mem_singleton] at hx
    exact Or.inl (hx ▸ rfl)
  | cons z zs ih =>
    by_cases hz : z.ticker = r.ticker ∧ z.mover_type = r.mover_type
    · simp only [upsertMarketMover, if_pos hz, List.mem_cons] at hx
      rcases hx with hx | hx
      · exact Or.inl (by rw [hx]; exact hz.2)
      · exact Or.inr ⟨x, List.mem_cons_of_mem _ hx, rfl⟩
    · simp only [upsertMarketMover, if_neg hz, List.mem_cons] at hx
      rcases hx with hx | hx
      · exact Or.inr ⟨z, List.mem_cons_self _ _, by rw [hx]⟩
      · rcases ih hx with h1 | ⟨y, hy, hyt⟩
        · exact Or.inl h1
        · exact Or.inr ⟨y, List.mem_cons_of_mem _ hy, hyt⟩

theorem countType_upsertMarketMover_le (rows : List MarketMoverRow)
    (r : MarketMoverRow) (t : String) :
    countType (upsertMarketMover rows r) t ≤ countType rows t + 1 := by
  induction rows with
  | nil =>
    simp only [upsertMarketMover, countType, List.countP_cons, List.countP_nil]
    split <;> simp
  | cons x xs ih =>
    by_cases hx : x.ticker = r.ticker ∧ x.mover_type = r.mover_type
    · simp only [upsertMarketMover, if_pos hx, countType, List.countP_cons]
      omega
    · simp only [upsertMarketMover, if_neg hx, countType, List.countP_cons] at ih ⊢
      omega

theorem countType_upsertMarketMover_ne (rows : List MarketMoverRow)
    (r : MarketMoverRow) (t : String) (h : r.mover_type ≠ t) :
    countType (upsertMarketMover rows r) t = countType rows t := by
  induction rows with
  | nil =>
    simp only [upsertMarketMover, countType, List.countP_cons, List.countP_nil]
    simp [h]
  | cons x xs ih =>
    by_cases hx : x.ticker = r.ticker ∧ x.mover_type = r.mover_type
    · simp [upsertMarketMover, if_pos hx, countType, List.countP_cons]
    · simp only [upsertMarketMover, if_neg hx, countType, List.countP_cons] at ih ⊢
      omega

/-! ## Lemmas about the gainers/losers fold -/

theorem hasMoverKey_applyMovers_mono (entries : List MarketMoverRow)
    (rows : List MarketMoverRow) (t mt : String) (h : hasMoverKey rows t mt) :
    hasMoverKey (applyMovers rows entries) t mt := by
  induction entries generalizing rows with
  | nil => exact h
  | cons e es ih =>
    exact ih (upsertMarketMover rows e) (hasMoverKey_upsertMarketMover_mono rows e t mt h)

theorem hasMoverKey_applyMovers_mem (entries : List MarketMoverRow)
    (rows : List MarketMoverRow) (e : MarketMoverRow) (he : e ∈ entries) :
    hasMoverKey (applyMovers rows entries) e.ticker e.mover_type := by
  induction entries generalizing rows with
  | nil => simp at he
  | cons f fs ih =>
    rcases List.mem_cons.mp he with rfl | hfs
    · exact hasMoverKey_applyMovers_mono fs _ e.ticker e.mover_type
        (hasMoverKey_upsertMarketMover_self rows e)
    · exact ih _ hfs

theorem moverKeys_nodup_applyMovers (entries : List MarketMoverRow)
    (rows : List MarketMoverRow) (h : (moverKeys rows).Nodup) :
    (moverKeys (applyMovers rows entries)).Nodup := by
  induction entries generalizing rows with
  | nil => exact h
  | cons e es ih =>
    exact ih (upsertMarketMover rows e) (moverKeys_nodup_upsertMarketMover rows e h)

theorem mover_type_mem_applyMovers (entries : List MarketMoverRow)
    (rows : List MarketMoverRow) (x : MarketMoverRow)
    (hx : x ∈ applyMovers rows entries) :
    (∃ e ∈ entries, x.mover_type = e.mover_type) ∨ ∃ y ∈ rows, x.mover_type = y.mover_type := by
  induction entries generalizing rows with
  | nil => exact Or.inr ⟨x, hx, rfl⟩
  | cons e es ih =>
    rcases ih (upsertMarketMover rows e) hx with ⟨f, hf, hft⟩ | ⟨y, hy, hyt⟩
    · exact Or.inl ⟨f, List.mem_cons_of_mem _ hf, hft⟩
    · rcases mover_type_mem_upsertMarketMover rows e y hy with h1 | ⟨z, hz, hzt⟩
      · exact Or.inl ⟨e, List.mem_cons_self _ _, hyt.trans h1⟩
      · exact Or.inr ⟨z, hz, hyt.trans hzt⟩

theorem countType_applyMovers_le (entries : List MarketMoverRow)
    (rows : List MarketMoverRow) (t : String) :
    countType (applyMovers rows entries) t ≤ countType rows t + entries.length := by
  induction entries generalizing rows with
  | nil => simp [applyMovers]
  | cons e es ih =>
    have h1 := ih (upsertMarketMover rows e)
    have h2 := countType_upsertMarketMover_le rows e t
    simp only [applyMovers, List.foldl_cons] at h1 ⊢
    simp only [List.length_cons]
    omega

theorem countType_applyMovers_ne (entries : List MarketMoverRow)
    (rows : List MarketMoverRow) (t : String) (h : ∀ e ∈ entries, e.mover_type ≠ t) :
    countType (applyMovers rows entries) t = countType rows t := by
  induction entries generalizing rows with
  | nil => rfl
  | cons e es ih =>
    have h1 := ih (upsertMarketMover rows e) (fun f hf => h f (List.mem_cons_of_mem _ hf))
    have h2 := countType_upsertMarketMover_ne rows e t (h e (List.mem_cons_self _ _))
    simp only [applyMovers, List.foldl_cons] at h1 ⊢
    omega

/-! ## Lemmas about the `sectoral_performance` upsert -/

/-- Natural keys of the `sectoral_performance` rows, in order. -/
def sectorNames (rows : List SectorRow) : List String :=
  rows.map (fun r => r.sector_name)

def applySectors (rows : List SectorRow) (items : List (String × Int)) (now : Nat) :
    List SectorRow :=
  items.foldl (fun rs p => upsertSector rs p.1 p.2 now) rows

theorem sectoralBlock_eq_applySectors (rows : List SectorRow) (nse : Nse) (now : Nat)
    (secs : List (String × Int)) (h : nse.get_sectoral_indices = some secs) :
    sectoralBlock rows nse now = applySectors rows secs now := by
  simp [sectoralBlock, h, applySectors]

theorem lookupSector_upsertSector_self (rows : List SectorRow)
    (n : String) (pc : Int) (now : Nat) :
    lookupSector (upsertSector rows n pc now) n = some ⟨n, pc, now⟩ := by
  induction rows with
  | nil => simp [upsertSector, lookupSector]
  | cons x xs ih =>
    by_cases h : x.sector_name = n
    · simp only [upsertSector, if_pos h, lookupSector]
      rw [h]
    · simp only [upsertSector, if_neg h, lookupSector]
      exact ih

theorem lookupSector_upsertSector_other (rows : List SectorRow)
    (n : String) (pc : Int) (now : Nat) (m : String) (h : m ≠ n) :
    lookupSector (upsertSector rows n pc now) m = lookupSector rows m := by
  induction rows with
  | nil =>
    have hnm : ¬n = m := fun hc => h hc.symm
    simp [upsertSector, lookupSector, hnm]
  | cons x xs ih =>
    by_cases hx : x.sector_name = n
    · simp only [upsertSector, if_pos hx, lookupSector]
      have hxm : ¬x.sector_name = m := fun hc => h (hc.symm.trans hx)
      rw [if_neg hxm, if_neg hxm]
    · simp only [upsertSector, if_neg hx, lookupSector]
      by_cases hxm : x.sector_name = m
      · rw [if_pos hxm, if_pos hxm]
      · rw [if_neg hxm, if_neg hxm]
        exact ih

theorem hasSectorKey_upsertSector_mono (rows : List SectorRow)
    (n : String) (pc : Int) (now : Nat) (m : String) (h : hasSectorKey rows m) :
    hasSectorKey (upsertSector rows n pc now) m := by
  induction rows with
  | nil => simp [hasSectorKey] at h
  | cons x xs ih =>
    by_cases hx : x.sector_name = n
    · simp only [upsertSector, if_pos hx]
      rcases h with ⟨y, hy, hyk⟩
      rcases List.mem_cons.mp hy with hyx | hyxs
      · subst hyx
        exact ⟨_, List.mem_cons_self _ _, by simpa using hyk⟩
      · exact ⟨y, List.mem_cons_of_mem _ hyxs, hyk⟩
    · simp only [upsertSector, if_neg hx]
      rcases h with ⟨y, hy, hyk⟩
      rcases List.mem_cons.mp hy with hyx | hyxs
      · subst hyx
        exact ⟨y, List.mem_cons_self _ _, hyk⟩
      · rcases ih ⟨y, hyxs, hyk⟩ with ⟨z, hz, hzk⟩
        exact ⟨z, List.mem_cons_of_mem _ hz, hzk⟩

theorem hasSectorKey_upsertSector_self (rows : List SectorRow)
    (n : String) (pc : Int) (now : Nat) :
    hasSectorKey (upsertSector rows n pc now) n := by
  induction rows with
  | nil => exact ⟨⟨n, pc, now⟩, by simp [upsertSector], rfl⟩
  | cons x xs ih =>
    by_cases hx : x.sector_name = n
    · simp only [upsertSector, if_pos hx]
      exact ⟨_, List.mem_cons_self _ _, hx⟩
    · simp only [upsertSector, if_neg hx]
      rcases ih with ⟨z, hz, hzk⟩
      exact ⟨z, List.mem_cons_of_mem _ hz, hzk⟩

theorem upsertSector_length_present (rows : List SectorRow)
    (n : String) (pc : Int) (now : Nat) (h : hasSectorKey rows n) :
    (upsertSector rows n pc now).length = rows.length := by
  induction rows with
  | nil => simp [hasSectorKey] at h
  | cons x xs ih =>
    by_cases hx : x.sector_name = n
    · simp [upsertSector, hx]
    · simp only [upsertSector, if_neg hx, List.length_cons]
      rcases h with ⟨y, hy, hyk⟩
      rcases List.mem_cons.mp hy with hyx | hyxs
      · subst hyx; exact absurd hyk hx
      · rw [ih ⟨y, hyxs, hyk⟩]

theorem upsertSector_not_present (rows : List SectorRow)
    (n : String) (pc : Int) (now : Nat) (h : ¬hasSectorKey rows n) :
    upsertSector rows n pc now = rows ++ [⟨n, pc, now⟩] := by
  induction rows with
  | nil => simp [upsertSector]
  | cons x xs ih =>
    by_cases hx : x.sector_name = n
    · exact absurd ⟨x, List.mem_cons_self _ _, hx⟩ h
    · simp only [upsertSector, if_neg hx, List.cons_append, List.cons.injEq, true_and]
      exact ih (fun ⟨y, hy, hyk⟩ => h ⟨y, List.mem_cons_of_mem _ hy, hyk⟩)

theorem sectorNames_upsertSector_present (rows : List SectorRow)
    (n : String) (pc : Int) (now : Nat) (h : hasSectorKey rows n) :
    sectorNames (upsertSector rows n pc now) = sectorNames rows := by
  induction rows with
  | nil => simp [hasSectorKey] at h
  | cons x xs ih =>
    by_cases hx : x.sector_name = n
    · simp [upsertSector, hx, sectorNames]
    · simp only [upsertSector, if_neg hx, sectorNames, List.map_cons, List.cons.injEq,
        true_and]
      rcases h with ⟨y, hy, hyk⟩
      rcases List.mem_cons.mp hy with hyx | hyxs
      · subst hyx; exact absurd hyk hx
      · exact ih ⟨y, hyxs, hyk⟩

theorem mem_sectorNames (rows : List SectorRow) (n : String) :
    n ∈ sectorNames rows ↔ hasSectorKey rows n := by
  simp [sectorNames, hasSectorKey]

theorem sectorNames_nodup_upsertSector (rows : List SectorRow)
    (n : String) (pc : Int) (now : Nat) (h : (sectorNames rows).Nodup) :
    (sectorNames (upsertSector rows n pc now)).Nodup := by
  by_cases hp : hasSectorKey rows n
  · rw [sectorNames_upsertSector_present rows n pc now hp]; exact h
  · rw [upsertSector_not_present rows n pc now hp]
    have : sectorNames (rows ++ [⟨n, pc, now⟩]) = sectorNames rows ++ [n] := by
      simp [sectorNames]
    rw [this, List.nodup_append]
    refine ⟨h, List.nodup_singleton _, ?_⟩
    intro m hm1 hm2
    rcases List.mem_singleton.mp hm2 with rfl
    exact hp ((mem_sectorNames rows m).mp hm1)

/-! ## Lemmas about the sectoral fold -/

theorem hasSectorKey_applySectors_mono (items : List (String × Int))
    (rows : List SectorRow) (now : Nat) (m : String) (h : hasSectorKey rows m) :
    hasSectorKey (applySectors rows items now) m := by
  induction items generalizing rows with
  | nil => exact h
  | cons p ps ih =>
    exact ih (upsertSector rows p.1 p.2 now)
      (hasSectorKey_upsertSector_mono rows p.1 p.2 now m h)

theorem hasSectorKey_applySectors_mem (items : List (String × Int))
    (rows : List SectorRow) (now : Nat) (p : String × Int) (hp : p ∈ items) :
    hasSectorKey (applySectors rows items now) p.1 := by
  induction items generalizing rows with
  | nil => simp at hp
  | cons q qs ih =>
    rcases List.mem_cons.mp hp with rfl | hqs
    · exact hasSectorKey_applySectors_mono qs _ now p.1
        (hasSectorKey_upsertSector_self rows p.1 p.2 now)
    · exact ih _ hqs

theorem sectorNames_nodup_applySectors (items : List (String × Int))
    (rows : List SectorRow) (now : Nat) (h : (sectorNames rows).Nodup) :
    (sectorNames (applySectors rows items now)).Nodup := by
  induction items generalizing rows with
  | nil => exact h
  | cons p ps ih =>
    exact ih (upsertSector rows p.1 p.2 now)
      (sectorNames_nodup_upsertSector rows p.1 p.2 now h)

/-! ## Lemmas about `setup_database` -/

/-- A table with the given name exists in the database. -/
def tableExists (db : DBState) (n : String) : Prop :=
  ∃ t ∈ db.tables, t.name = n

instance (db : DBState) (n : String) : Decidable (tableExists db n) :=
  List.decidableBEx _ db.tables

theorem createTableIfNotExists_of_exists (tables : List TableSchema) (t : TableSchema)
    (h : ∃ s ∈ tables, s.name = t.name) :
    createTableIfNotExists tables t = tables := by
  rcases h with ⟨s, hs, hn⟩
  have : tables.any (fun s => s.name == t.name) = true :=
    List.any_eq_true.mpr ⟨s, hs, by simp [hn]⟩
  simp [createTableIfNotExists, this]

theorem exists_createTableIfNotExists_self (tables : List TableSchema) (t : TableSchema) :
    ∃ s ∈ createTableIfNotExists tables t, s.name = t.name := by
  unfold createTableIfNotExists
  by_cases h : tables.any (fun s => s.name == t.name) = true
  · rcases List.any_eq_true.mp h with ⟨s, hs, hn⟩
    exact ⟨s, by simp [h, hs], by simpa using hn⟩
  · refine ⟨t, ?_, rfl⟩
    simp [h]

theorem exists_createTableIfNotExists_mono (tables : List TableSchema) (t : TableSchema)
    (n : String) (h : ∃ s ∈ tables, s.name = n) :
    ∃ s ∈ createTableIfNotExists tables t, s.name = n := by
  rcases h with ⟨s, hs, hn⟩
  unfold createTableIfNotExists
  by_cases hc : tables.any (fun s => s.name == t.name) = true
  · exact ⟨s, by simp [hc, hs], hn⟩
  · exact ⟨s, by simp [hc]; exact Or.inl hs, hn⟩

theorem setup_database_tableExists (db : DBState) :
    tableExists (setup_database db) "indices" ∧
    tableExists (setup_database db) "market_movers" ∧
    tableExists (setup_database db) "sectoral_performance" ∧
    tableExists (setup_database db) "volume_shockers" := by
  unfold setup_database tableExists
  refine ⟨?_, ?_, ?_, ?_⟩
  · exact exists_createTableIfNotExists_mono _ _ _
      (exists_createTableIfNotExists_mono _ _ _
        (exists_createTableIfNotExists_mono _ _ _
          (exists_createTableIfNotExists_self _ _)))
  · exact exists_createTableIfNotExists_mono _ _ _
      (exists_createTableIfNotExists_mono _ _ _
        (exists_createTableIfNotExists_self _ _))
  · exact exists_createTableIfNotExists_mono _ _ _
      (exists_createTableIfNotExists_self _ _)
  · exact exists_createTableIfNotExists_self _ _

theorem setup_database_of_tablesExist (db : DBState)
    (h1 : tableExists db "indices") (h2 : tableExists db "market_movers")
    (h3 : tableExists db "sectoral_performance") (h4 : tableExists db "volume_shockers") :
    setup_database db = db := by
  have e1 : createTableIfNotExists db.tables indices_schema = db.tables :=
    createTableIfNotExists_of_exists db.tables indices_schema h1
  have e2 : createTableIfNotExists db.tables market_movers_schema = db.tables :=
    createTableIfNotExists_of_exists db.tables market_movers_schema h2
  have e3 : createTableIfNotExists db.tables sectoral_performance_schema = db.tables :=
    createTableIfNotExists_of_exists db.tables sectoral_performance_schema h3
  have e4 : createTableIfNotExists db.tables volume_shockers_schema = db.tables :=
    createTableIfNotExists_of_exists db.tables volume_shockers_schema h4
  unfold setup_database
  simp only [e1, e2, e3, e4]

/-! ## Row-type and uniqueness facts about the two update blocks -/

theorem moverKeys_nodup_moversBlock (rows : List MarketMoverRow) (nse : Nse)
    (h : (moverKeys rows).Nodup) : (moverKeys (moversBlock rows nse)).Nodup := by
  unfold moversBlock
  cases nse.get_top_gainers with
  | none => exact h
  | some gs =>
    cases nse.get_top_losers with
    | none => exact moverKeys_nodup_applyMovers _ _ h
    | some ls => exact moverKeys_nodup_applyMovers _ _ (moverKeys_nodup_applyMovers _ _ h)

theorem sectorNames_nodup_sectoralBlock (rows : List SectorRow) (nse : Nse) (now : Nat)
    (h : (sectorNames rows).Nodup) : (sectorNames (sectoralBlock rows nse now)).Nodup := by
  unfold sectoralBlock
  cases nse.get_sectoral_indices with
  | none => exact h
  | some secs => exact sectorNames_nodup_applySectors secs rows now h

theorem mover_type_moversBlock (rows : List MarketMoverRow) (nse : Nse)
    (x : MarketMoverRow) (hx : x ∈ moversBlock rows nse) :
    x.mover_type = "GAINER" ∨ x.mover_type = "LOSER" ∨
      ∃ y ∈ rows, x.mover_type = y.mover_type := by
  unfold moversBlock at hx
  cases hg : nse.get_top_gainers with
  | none =>
    rw [hg] at hx
    exact Or.inr (Or.inr ⟨x, hx, rfl⟩)
  | some gs =>
    rw [hg] at hx
    have fromGainers : ∀ z : MarketMoverRow,
        z ∈ applyMovers rows ((gs.take 5).map gainerRow) →
        z.mover_type = "GAINER" ∨ ∃ y ∈ rows, z.mover_type = y.mover_type := by
      intro z hz
      rcases mover_type_mem_applyMovers _ _ _ hz with ⟨e, he, het⟩ | hy
      · rcases List.mem_map.mp he with ⟨g, _, rfl⟩
        exact Or.inl het
      · exact Or.inr hy
    cases hl : nse.get_top_losers with
    | none =>
      rw [hl] at hx
      rcases fromGainers x hx with h1 | h2
      · exact Or.inl h1
      · exact Or.inr (Or.inr h2)
    | some ls =>
      rw [hl] at hx
      rcases mover_type_mem_applyMovers _ _ _ hx with ⟨e, he, het⟩ | ⟨y, hy, hyt⟩
      · rcases List.mem_map.mp he with ⟨l, _, rfl⟩
        exact Or.inr (Or.inl het)
      · rcases fromGainers y hy with h1 | ⟨z, hz, hzt⟩
        · exact Or.inl (hyt.trans h1)
        · exact Or.inr (Or.inr ⟨z, hz, hyt.trans hzt⟩)

/-- Every `market_movers` row is tagged GAINER or LOSER. -/
def moverTypesOK (db : DBState) : Prop :=
  ∀ r ∈ db.market_movers, r.mover_type = "GAINER" ∨ r.mover_type = "LOSER"

instance (db : DBState) : Decidable (moverTypesOK db) :=
  List.decidableBAll _ db.market_movers

/-! ## Sample inputs for concrete runs -/

def nseSample : Nse :=
  { get_top_gainers := some [⟨"INFY", 1500, 3⟩, ⟨"TCS", 3500, 2⟩]
  , get_top_losers := some [⟨"HDFCBANK", 1600, -2⟩]
  , get_sectoral_indices := some [("NIFTY BANK", 2), ("NIFTY IT", -1)] }

def nseMoversFail : Nse :=
  { get_top_gainers := none
  , get_top_losers := some [⟨"HDFCBANK", 1600, -2⟩]
  , get_sectoral_indices := some [("NIFTY BANK", 2)] }

/-! ## The claims -/

/-- C5: schema creation is idempotent: running `setup_database` twice leaves
the same tables and schemas as running it once, and on a database where the
four tables already exist `setup_database` changes nothing. -/
theorem scraper_C5 (db : DBState) :
    setup_database (setup_database db) = setup_database db ∧
    (tableExists db "indices" ∧ tableExists db "market_movers" ∧
       tableExists db "sectoral_performance" ∧ tableExists db "volume_shockers" →
     setup_database db = db) := by
  constructor
  · obtain ⟨h1, h2, h3, h4⟩ := setup_database_tableExists db
    exact setup_database_of_tablesExist _ h1 h2 h3 h4
  · rintro ⟨h1, h2, h3, h4⟩
    exact setup_database_of_tablesExist _ h1 h2 h3 h4

/-- C5 witness: the idempotence instantiated on a database that already
holds the four tables, with the table-existence hypothesis discharged by
evaluation. -/
theorem scraper_C5_witness :
    setup_database (setup_database (setup_database emptyDB)) =
      setup_database (setup_database emptyDB) ∧
    setup_database (setup_database emptyDB) = setup_database emptyDB :=
  ⟨(scraper_C5 (setup_database emptyDB)).1,
   (scraper_C5 (setup_database emptyDB)).2 (by decide)⟩

/-- C3 counterexample: `setup_database` creates the four tables, but the
`market_movers` table carries no last-updated timestamp column, contrary to
the claim that each of the four tables does. -/
theorem scraper_C3_counterexample :
    (setup_database emptyDB).tables =
      [indices_schema, market_movers_schema, sectoral_performance_schema,
        volume_shockers_schema] ∧
    "last_updated" ∉ market_movers_schema.columns := by decide

/-- C3 amended: each of the four tables is keyed by its natural identifier
(index name; ticker plus mover-type; sector name; ticker); `indices`,
`sectoral_performance` and `volume_shockers` carry a `last_updated`
timestamp column, while `market_movers` does not. -/
theorem scraper_C3 :
    (setup_database emptyDB).tables =
      [indices_schema, market_movers_schema, sectoral_performance_schema,
        volume_shockers_schema] ∧
    indices_schema.uniqueKey = ["name"] ∧
    "last_updated" ∈ indices_schema.columns ∧
    market_movers_schema.uniqueKey = ["ticker", "mover_type"] ∧
    "last_updated" ∉ market_movers_schema.columns ∧
    sectoral_performance_schema.uniqueKey = ["sector_name"] ∧
    "last_updated" ∈ sectoral_performance_schema.columns ∧
    volume_shockers_schema.uniqueKey = ["ticker"] ∧
    "last_updated" ∈ volume_shockers_schema.columns := by decide

/-- C4: the upserts issued by `update_data` overwrite matching keys.  For
`market_movers`, the row found under the upserted key afterwards carries
exactly the new values, rows under other keys are untouched, a present key
keeps the row count unchanged, and an absent key appends one fresh row; the
same holds for `sectoral_performance` (whose conflict clause also rewrites
`last_updated`). -/
theorem scraper_C4 (mrows : List MarketMoverRow) (r : MarketMoverRow)
    (srows : List SectorRow) (n : String) (pc : Int) (now : Nat) :
    lookupMover (upsertMarketMover mrows r) r.ticker r.mover_type = some r ∧
    (∀ t mt, ¬(t = r.ticker ∧ mt = r.mover_type) →
      lookupMover (upsertMarketMover mrows r) t mt = lookupMover mrows t mt) ∧
    (hasMoverKey mrows r.ticker r.mover_type →
      (upsertMarketMover mrows r).length = mrows.length) ∧
    (¬hasMoverKey mrows r.ticker r.mover_type →
      upsertMarketMover mrows r = mrows ++ [r]) ∧
    lookupSector (upsertSector srows n pc now) n = some ⟨n, pc, now⟩ ∧
    (∀ m, m ≠ n →
      lookupSector (upsertSector srows n pc now) m = lookupSector srows m) ∧
    (hasSectorKey srows n → (upsertSector srows n pc now).length = srows.length) ∧
    (¬hasSectorKey srows n → upsertSector srows n pc now = srows ++ [⟨n, pc, now⟩]) := by
  refine ⟨lookupMover_upsertMarketMover_self mrows r, ?_, ?_, ?_,
    lookupSector_upsertSector_self srows n pc now, ?_, ?_, ?_⟩
  · intro t mt h
    exact lookupMover_upsertMarketMover_other mrows r t mt h
  · exact upsertMarketMover_length_present mrows r
  · exact upsertMarketMover_not_present mrows r
  · intro m hm
    exact lookupSector_upsertSector_other srows n pc now m hm
  · exact upsertSector_length_present srows n pc now
  · exact upsertSector_not_present srows n pc now

/-- C4 witness: the overwrite case on a one-row `market_movers` table and
the insert case on an empty `sectoral_performance` table, both hypotheses
discharged by evaluation. -/
theorem scraper_C4_witness :
    (upsertMarketMover [⟨"INFY", 1, 1, "GAINER"⟩] ⟨"INFY", 2, 2, "GAINER"⟩).length =
      [(⟨"INFY", 1, 1, "GAINER"⟩ : MarketMoverRow)].length ∧
    upsertSector [] "NIFTY IT" 3 9 = [] ++ [⟨"NIFTY IT", 3, 9⟩] :=
  ⟨(scraper_C4 [⟨"INFY", 1, 1, "GAINER"⟩] ⟨"INFY", 2, 2, "GAINER"⟩ [] "NIFTY IT" 3 9).2.2.1
      (by decide),
   (scraper_C4 [⟨"INFY", 1, 1, "GAINER"⟩] ⟨"INFY", 2, 2, "GAINER"⟩ [] "NIFTY IT" 3 9).2.2.2.2.2.2.2
      (by decide)⟩

/-- C6: when `get_db_connection` returns None the run is aborted: neither
`setup_database` nor `update_data` is entered, the database is unchanged,
and no close happens (no connection was open). -/
theorem scraper_C6 (att : ConnAttempt) (db0 : DBState) (nse : Nse) (now : Nat)
    (h : get_db_connection att = false) :
    scriptMain att db0 nse now =
      { db := db0, ranSetup := false, ranUpdate := false, closed := false } := by
  simp [scriptMain, runMain, h]

/-- C6 witness: a failed connection attempt on the empty database. -/
theorem scraper_C6_witness :
    scriptMain ConnAttempt.failure emptyDB nseSample 0 =
      { db := emptyDB, ranSetup := false, ranUpdate := false, closed := false } :=
  scraper_C6 ConnAttempt.failure emptyDB nseSample 0 rfl

/-- C7: whenever a connection is obtained, the `finally` clause closes it on
every path: whether the body finishes or either `setup_database` or
`update_data` raises an uncaught exception, the run ends with
`connection.close()` executed. -/
theorem scraper_C7 (att : ConnAttempt) (db0 : DBState)
    (setupStep updateStep : DBState → Except DBState DBState)
    (h : get_db_connection att = true) :
    (runMain (get_db_connection att) db0 setupStep updateStep).closed = true := by
  rw [h]
  unfold runMain
  cases hs : setupStep db0 with
  | error dbe => simp [hs]
  | ok db1 =>
    cases hu : updateStep db1 with
    | error dbe => simp [hs, hu]
    | ok db2 => simp [hs, hu]

/-- C7 witness: a successful connection whose update step raises; the
connection is closed anyway. -/
theorem scraper_C7_witness :
    (runMain (get_db_connection ConnAttempt.success) emptyDB
      (fun db => Except.ok (setup_database db))
      (fun db => Except.error db)).closed = true :=
  scraper_C7 ConnAttempt.success emptyDB
    (fun db => Except.ok (setup_database db)) (fun db => Except.error db) rfl

/-- C2: when the market-movers fetch raises (caught and logged inside
`update_data`), the `market_movers` table is left untouched while the
sectoral category is still fetched and every returned sector is upserted;
the failure does not propagate out of `update_data`. -/
theorem scraper_C2 (db : DBState) (nse : Nse) (now : Nat) (secs : List (String × Int))
    (hg : nse.get_top_gainers = none)
    (hs : nse.get_sectoral_indices = some secs) :
    (update_data db nse now).market_movers = db.market_movers ∧
    (update_data db nse now).sectoral_performance =
      applySectors db.sectoral_performance secs now ∧
    ∀ p ∈ secs, hasSectorKey (update_data db nse now).sectoral_performance p.1 := by
  have hm : (update_data db nse now).market_movers = db.market_movers := by
    show moversBlock db.market_movers nse = db.market_movers
    unfold moversBlock
    rw [hg]
  have hsp : (update_data db nse now).sectoral_performance =
      applySectors db.sectoral_performance secs now := by
    show sectoralBlock db.sectoral_performance nse now = _
    exact sectoralBlock_eq_applySectors _ nse now secs hs
  refine ⟨hm, hsp, ?_⟩
  intro p hp
  rw [hsp]
  exact hasSectorKey_applySectors_mem secs _ now p hp

/-- C2 witness: a run whose gainers fetch fails while one sector is
returned; the sector is upserted, the movers table is unchanged. -/
theorem scraper_C2_witness :
    (update_data emptyDB nseMoversFail 7).market_movers = emptyDB.market_movers ∧
    (update_data emptyDB nseMoversFail 7).sectoral_performance =
      applySectors emptyDB.sectoral_performance [("NIFTY BANK", (2 : Int))] 7 ∧
    ∀ p ∈ [("NIFTY BANK", (2 : Int))],
      hasSectorKey (update_data emptyDB nseMoversFail 7).sectoral_performance p.1 :=
  scraper_C2 emptyDB nseMoversFail 7 [("NIFTY BANK", 2)] rfl rfl

/-- C8: uniqueness invariant: any sequence of `setup_database` and
`update_data` operations applied to a database satisfying the four
uniqueness constraints yields a database still satisfying them: at most one
`indices` row per name, one `market_movers` row per (ticker, mover_type),
one `sectoral_performance` row per sector name, one `volume_shockers` row
per ticker. -/
theorem scraper_C8 (ops : List Op) (db : DBState) (h : dbUnique db) :
    dbUnique (applyOps db ops) := by
  induction ops generalizing db with
  | nil => exact h
  | cons op os ih =>
    refine ih (applyOp db op) ?_
    cases op with
    | setup => exact h
    | update nse now =>
      obtain ⟨h1, h2, h3, h4⟩ := h
      exact ⟨h1, moverKeys_nodup_moversBlock _ nse h2,
        sectorNames_nodup_sectoralBlock _ nse now h3, h4⟩

/-- C8 witness: a setup followed by an update on the empty database keeps
the uniqueness constraints. -/
theorem scraper_C8_witness :
    dbUnique (applyOps emptyDB [Op.setup, Op.update nseSample 5]) :=
  scraper_C8 [Op.setup, Op.update nseSample 5] emptyDB (by decide)

/-- C10: every `market_movers` row ever produced is tagged GAINER or LOSER,
and no operation rewrites a row's tag to anything else: the invariant is
preserved by every sequence of `setup_database` / `update_data`
operations. -/
theorem scraper_C10 (ops : List Op) (db : DBState) (h : moverTypesOK db) :
    moverTypesOK (applyOps db ops) := by
  induction ops generalizing db with
  | nil => exact h
  | cons op os ih =>
    refine ih (applyOp db op) ?_
    cases op with
    | setup => exact h
    | update nse now =>
      intro r hr
      rcases mover_type_moversBlock db.market_movers nse r hr with h1 | h2 | ⟨y, hy, hyt⟩
      · exact Or.inl h1
      · exact Or.inr h2
      · rcases h y hy with hG | hL
        · exact Or.inl (hyt.trans hG)
        · exact Or.inr (hyt.trans hL)

/-- C10 witness: two updates (one with a failed gainers fetch) after a
setup keep every row tagged GAINER or LOSER. -/
theorem scraper_C10_witness :
    moverTypesOK (applyOps emptyDB
      [Op.setup, Op.update nseSample 3, Op.update nseMoversFail 4]) :=
  scraper_C10 [Op.setup, Op.update nseSample 3, Op.update nseMoversFail 4]
    emptyDB (by decide)

/-- C9: `update_data` slices both fetched lists with `[:5]`: starting from
an empty `market_movers` table it leaves at most 5 GAINER rows and at most
5 LOSER rows, every entry of each five-entry slice is upserted, and when a
fetched list has at most 5 entries every one of its entries is upserted. -/
theorem scraper_C9 (db : DBState) (nse : Nse) (now : Nat) (gs ls : List StockEntry)
    (h0 : db.market_movers = [])
    (hg : nse.get_top_gainers = some gs)
    (hl : nse.get_top_losers = some ls) :
    countType (update_data db nse now).market_movers "GAINER" ≤ 5 ∧
    countType (update_data db nse now).market_movers "LOSER" ≤ 5 ∧
    (∀ g ∈ gs.take 5,
      hasMoverKey (update_data db nse now).market_movers g.symbol "GAINER") ∧
    (∀ l ∈ ls.take 5,
      hasMoverKey (update_data db nse now).market_movers l.symbol "LOSER") ∧
    (gs.length ≤ 5 → ∀ g ∈ gs,
      hasMoverKey (update_data db nse now).market_movers g.symbol "GAINER") ∧
    (ls.length ≤ 5 → ∀ l ∈ ls,
      hasMoverKey (update_data db nse now).market_movers l.symbol "LOSER") := by
  have hmv : (update_data db nse now).market_movers =
      applyMovers (applyMovers [] ((gs.take 5).map gainerRow)) ((ls.take 5).map loserRow) := by
    show moversBlock db.market_movers nse = _
    unfold moversBlock
    rw [hg, hl, h0]
  have hglen : ((gs.take 5).map gainerRow).length ≤ 5 := by
    rw [List.length_map]
    exact List.length_take_le _ _
  have hllen : ((ls.take 5).map loserRow).length ≤ 5 := by
    rw [List.length_map]
    exact List.length_take_le _ _
  have hgtypes : ∀ e ∈ (gs.take 5).map gainerRow, e.mover_type ≠ "LOSER" := by
    intro e he
    rcases List.mem_map.mp he with ⟨g, _, rfl⟩
    show ("GAINER" : String) ≠ "LOSER"
    decide
  have hltypes : ∀ e ∈ (ls.take 5).map loserRow, e.mover_type ≠ "GAINER" := by
    intro e he
    rcases List.mem_map.mp he with ⟨l, _, rfl⟩
    show ("LOSER" : String) ≠ "GAINER"
    decide
  have cg1 : countType (applyMovers [] ((gs.take 5).map gainerRow)) "GAINER" ≤ 5 := by
    have h1 := countType_applyMovers_le ((gs.take 5).map gainerRow) [] "GAINER"
    have c0 : countType ([] : List MarketMoverRow) "GAINER" = 0 := rfl
    omega
  have cl1 : countType (applyMovers [] ((gs.take 5).map gainerRow)) "LOSER" = 0 := by
    have h1 := countType_applyMovers_ne ((gs.take 5).map gainerRow) [] "LOSER" hgtypes
    have c0 : countType ([] : List MarketMoverRow) "LOSER" = 0 := rfl
    omega
  have memg : ∀ g ∈ gs.take 5,
      hasMoverKey (update_data db nse now).market_movers g.symbol "GAINER" := by
    intro g hgm
    rw [hmv]
    refine hasMoverKey_applyMovers_mono _ _ _ _ ?_
    exact hasMoverKey_applyMovers_mem _ _ (gainerRow g) (List.mem_map_of_mem gainerRow hgm)
  have meml : ∀ l ∈ ls.take 5,
      hasMoverKey (update_data db nse now).market_movers l.symbol "LOSER" := by
    intro l hlm
    rw [hmv]
    exact hasMoverKey_applyMovers_mem _ _ (loserRow l) (List.mem_map_of_mem loserRow hlm)
  refine ⟨?_, ?_, memg, meml, ?_, ?_⟩
  · rw [hmv]
    have h2 := countType_applyMovers_ne ((ls.take 5).map loserRow)
      (applyMovers [] ((gs.take 5).map gainerRow)) "GAINER" hltypes
    omega
  · rw [hmv]
    have h2 := countType_applyMovers_le ((ls.take 5).map loserRow)
      (applyMovers [] ((gs.take 5).map gainerRow)) "LOSER"
    omega
  · intro hlen g hgm
    exact memg g (by rw [List.take_of_length_le hlen]; exact hgm)
  · intro hlen l hlm
    exact meml l (by rw [List.take_of_length_le hlen]; exact hlm)

/-- C9 witness: a seven-gainer, two-loser response on an empty table; the
bounds and the membership of every loser are instances of C9. -/
theorem scraper_C9_witness :
    countType (update_data emptyDB
      { get_top_gainers := some [⟨"A", 1, 1⟩, ⟨"B", 1, 1⟩, ⟨"C", 1, 1⟩, ⟨"D", 1, 1⟩,
          ⟨"E", 1, 1⟩, ⟨"F", 1, 1⟩, ⟨"G", 1, 1⟩]
      , get_top_losers := some [⟨"X", 1, -1⟩, ⟨"Y", 1, -1⟩]
      , get_sectoral_indices := some [] } 0).market_movers "GAINER" ≤ 5 ∧
    ∀ l ∈ [(⟨"X", 1, -1⟩ : StockEntry), ⟨"Y", 1, -1⟩],
      hasMoverKey (update_data emptyDB
        { get_top_gainers := some [⟨"A", 1, 1⟩, ⟨"B", 1, 1⟩, ⟨"C", 1, 1⟩, ⟨"D", 1, 1⟩,
            ⟨"E", 1, 1⟩, ⟨"F", 1, 1⟩, ⟨"G", 1, 1⟩]
        , get_top_losers := some [⟨"X", 1, -1⟩, ⟨"Y", 1, -1⟩]
        , get_sectoral_indices := some [] } 0).market_movers l.symbol "LOSER" := by
  have h := scraper_C9 emptyDB
    { get_top_gainers := some [⟨"A", 1, 1⟩, ⟨"B", 1, 1⟩, ⟨"C", 1, 1⟩, ⟨"D", 1, 1⟩,
        ⟨"E", 1, 1⟩, ⟨"F", 1, 1⟩, ⟨"G", 1, 1⟩]
    , get_top_losers := some [⟨"X", 1, -1⟩, ⟨"Y", 1, -1⟩]
    , get_sectoral_indices := some [] } 0
    [⟨"A", 1, 1⟩, ⟨"B", 1, 1⟩, ⟨"C", 1, 1⟩, ⟨"D", 1, 1⟩, ⟨"E", 1, 1⟩, ⟨"F", 1, 1⟩,
      ⟨"G", 1, 1⟩]
    [⟨"X", 1, -1⟩, ⟨"Y", 1, -1⟩] rfl rfl rfl
  exact ⟨h.1, h.2.2.2.2.2 (by decide)⟩

/-- C1 counterexample: a run with a successful connection and data returned
for every method the script calls upserts market movers and sectors, yet
leaves `indices` and `volume_shockers` empty — the script does not fetch or
upsert those two of the four claimed categories. -/
theorem scraper_C1_counterexample :
    (scriptMain ConnAttempt.success emptyDB nseSample 0).db.market_movers ≠ [] ∧
    (scriptMain ConnAttempt.success emptyDB nseSample 0).db.sectoral_performance ≠ [] ∧
    (scriptMain ConnAttempt.success emptyDB nseSample 0).db.indices = [] ∧
    (scriptMain ConnAttempt.success emptyDB nseSample 0).db.volume_shockers = [] := by
  decide

/-- C1 amended: for every run in which a database connection is obtained
and the fetches succeed, the script runs the linear sequence: ensure
tables, fetch, upsert, close; it fetches two data categories — top
gainers/losers and sectoral performance — and upserts each into its table
(`market_movers`, `sectoral_performance`), while the `indices` and
`volume_shockers` tables are created but never written. -/
theorem scraper_C1 (att : ConnAttempt) (db0 : DBState) (nse : Nse) (now : Nat)
    (gs ls : List StockEntry) (secs : List (String × Int))
    (hc : get_db_connection att = true)
    (hg : nse.get_top_gainers = some gs)
    (hl : nse.get_top_losers = some ls)
    (hs : nse.get_sectoral_indices = some secs) :
    scriptMain att db0 nse now =
      { db := update_data (setup_database db0) nse now
      , ranSetup := true, ranUpdate := true, closed := true } ∧
    (∀ g ∈ gs.take 5,
      hasMoverKey (scriptMain att db0 nse now).db.market_movers g.symbol "GAINER") ∧
    (∀ l ∈ ls.take 5,
      hasMoverKey (scriptMain att db0 nse now).db.market_movers l.symbol "LOSER") ∧
    (∀ p ∈ secs,
      hasSectorKey (scriptMain att db0 nse now).db.sectoral_performance p.1) ∧
    (scriptMain att db0 nse now).db.indices = db0.indices ∧
    (scriptMain att db0 nse now).db.volume_shockers = db0.volume_shockers := by
  have hrun : scriptMain att db0 nse now =
      { db := update_data (setup_database db0) nse now
      , ranSetup := true, ranUpdate := true, closed := true } := by
    simp [scriptMain, runMain, hc]
  rw [hrun]
  have hmv : (update_data (setup_database db0) nse now).market_movers =
      applyMovers (applyMovers db0.market_movers ((gs.take 5).map gainerRow))
        ((ls.take 5).map loserRow) := by
    show moversBlock (setup_database db0).market_movers nse = _
    unfold moversBlock
    rw [hg, hl]
    rfl
  have hsp : (update_data (setup_database db0) nse now).sectoral_performance =
      applySectors db0.sectoral_performance secs now := by
    show sectoralBlock (setup_database db0).sectoral_performance nse now = _
    exact sectoralBlock_eq_applySectors _ nse now secs hs
  refine ⟨rfl, ?_, ?_, ?_, rfl, rfl⟩
  · intro g hgm
    rw [hmv]
    refine hasMoverKey_applyMovers_mono _ _ _ _ ?_
    exact hasMoverKey_applyMovers_mem _ _ (gainerRow g) (List.mem_map_of_mem gainerRow hgm)
  · intro l hlm
    rw [hmv]
    exact hasMoverKey_applyMovers_mem _ _ (loserRow l) (List.mem_map_of_mem loserRow hlm)
  · intro p hp
    rw [hsp]
    exact hasSectorKey_applySectors_mem secs _ now p hp

/-- C1 witness: the amended claim instantiated on the sample run, all fetch
hypotheses discharged by evaluation. -/
theorem scraper_C1_witness :
    scriptMain ConnAttempt.success emptyDB nseSample 4 =
      { db := update_data (setup_database emptyDB) nseSample 4
      , ranSetup := true, ranUpdate := true, closed := true } ∧
    (∀ g ∈ [(⟨"INFY", 1500, 3⟩ : StockEntry), ⟨"TCS", 3500, 2⟩].take 5,
      hasMoverKey (scriptMain ConnAttempt.success emptyDB nseSample 4).db.market_movers
        g.symbol "GAINER") ∧
    (∀ l ∈ [(⟨"HDFCBANK", 1600, -2⟩ : StockEntry)].take 5,
      hasMoverKey (scriptMain ConnAttempt.success emptyDB nseSample 4).db.market_movers
        l.symbol "LOSER") ∧
    (∀ p ∈ [("NIFTY BANK", (2 : Int)), ("NIFTY IT", -1)],
      hasSectorKey
        (scriptMain ConnAttempt.success emptyDB nseSample 4).db.sectoral_performance p.1) ∧
    (scriptMain ConnAttempt.success emptyDB nseSample 4).db.indices = emptyDB.indices ∧
    (scriptMain ConnAttempt.success emptyDB nseSample 4).db.volume_shockers =
      emptyDB.volume_shockers :=
  scraper_C1 ConnAttempt.success emptyDB nseSample 4
    [⟨"INFY", 1500, 3⟩, ⟨"TCS", 3500, 2⟩] [⟨"HDFCBANK", 1600, -2⟩]
    [("NIFTY BANK", 2), ("NIFTY IT", -1)] rfl rfl rfl rfl

end Scraper
